import Mathlib

/-!
Shallow embedding of the task-board core of this repository:
the `Task` entity, the `TaskModel` store with its observer notification
contract (`js/models/Task.js`), the controller command used by drag-and-drop
(`js/controllers/modal.js`, `updateTaskStatus`), and the drop handler
(`js/utils/DragDropHandler.js`, `handleDrop`).

Modelling conventions:
* JavaScript numbers are modelled as `Int`; the verified claims only compare
  ids and timestamps for equality and never perform fractional arithmetic.
* A JavaScript `Date` is its millisecond time value, `Option Int`, with
  `none` standing for an Invalid Date (internal value `NaN`).
* `Date.prototype.toISOString` renders the time value as a string and throws
  a `RangeError` on an Invalid Date; `new Date(string)` parses that string
  back to the exact same millisecond value, and yields an Invalid Date on a
  string it cannot parse.  The rendering is modelled as a signed decimal
  encoding (`isoEncode`) with its exact partial inverse (`isoDecode`); the
  pair has the same observable properties as the ISO-8601 pair: injective,
  exactly invertible, garbage parses to Invalid.
* Dynamic JavaScript values (parsed JSON, object fields) are the inductive
  `Json`; a missing object property (`undefined`) is `Option.none` at the
  lookup.
* Methods that mutate `this` and return a boolean are functions from the old
  state to `Bool × newState`; store mutators additionally return the list of
  observer notifications they delivered (observer id paired with whether the
  per-observer `catch` fired), so that notification order and error isolation
  are observable in the model.
-/

namespace TaskBoard

/-- Dynamic JSON/JavaScript values, as produced by `JSON.parse`. -/
inductive Json where
  | null
  | bool (b : Bool)
  | num (n : Int)
  | str (s : String)
  | arr (elems : List Json)
  | obj (fields : List (String × Json))

/-- JavaScript truthiness of a value. -/
def Json.truthy : Json → Bool
  | .null => false
  | .bool b => b
  | .num n => n != 0
  | .str s => s != ""
  | .arr _ => true
  | .obj _ => true

/-- Property lookup `v[k]`: `none` models `undefined`.  Property access on a
primitive yields `undefined` for every name used by this program. -/
def Json.get? : Json → String → Option Json
  | .obj fields, k => fields.lookup k
  | _, _ => none

/-! ### The timestamp codec

`isoEncode` stands for `Date.prototype.toISOString` applied to a valid time
value and `isoDecode` for the `new Date(string)` parse; see the header. -/

/-- The ten decimal digit characters, in value order. -/
def decimalDigitChars : List Char :=
  ['0', '1', '2', '3', '4', '5', '6', '7', '8', '9']

/-- Decimal digit character of `d` (only used with `d < 10`). -/
def digitChar (d : Nat) : Char :=
  decimalDigitChars.getD d '0'

/-- Value of a decimal digit character: the digit it renders, if any. -/
def digitVal (c : Char) : Option Nat :=
  (List.range 10).find? (fun d => digitChar d == c)

/-- Values of a list of digit characters (most significant first). -/
def decodeDigits : List Char → Option (List Nat)
  | [] => some []
  | c :: cs =>
    match digitVal c, decodeDigits cs with
    | some d, some ds => some (d :: ds)
    | _, _ => none

/-- Decimal rendering of a natural number, most significant digit first. -/
def natEncode (n : Nat) : List Char :=
  if n = 0 then ['0'] else ((Nat.digits 10 n).map digitChar).reverse

/-- Parse a non-empty all-digit character list back to a natural number. -/
def natDecode (cs : List Char) : Option Nat :=
  match cs with
  | [] => none
  | _ :: _ => (decodeDigits cs).map (fun ds => Nat.ofDigits 10 ds.reverse)

/-- Signed decimal rendering of a millisecond time value. -/
def isoEncode (ms : Int) : String :=
  if ms < 0 then ⟨'-' :: natEncode ms.natAbs⟩ else ⟨natEncode ms.natAbs⟩

/-- Parse of a rendered time value; `none` models an Invalid Date. -/
def isoDecode (s : String) : Option Int :=
  match s.data with
  | [] => none
  | c :: cs =>
    if c = '-' then (natDecode cs).map (fun (n : Nat) => -(n : Int))
    else (natDecode (c :: cs)).map (fun (n : Nat) => (n : Int))

theorem digitVal_digitChar {d : Nat} (h : d < 10) : digitVal (digitChar d) = some d := by
  interval_cases d <;> rfl

theorem digitChar_ne_dash (d : Nat) : digitChar d ≠ '-' := by
  rcases Nat.lt_or_ge d 10 with h | h
  · interval_cases d <;> decide
  · have h0 : digitChar d = '0' :=
      List.getD_eq_default _ _ (by simpa [decimalDigitChars] using h)
    rw [h0]
    decide

theorem decodeDigits_map_digitChar (l : List Nat) (h : ∀ d ∈ l, d < 10) :
    decodeDigits (l.map digitChar) = some l := by
  induction l with
  | nil => rfl
  | cons d ds ih =>
    have hd : d < 10 := h d (List.mem_cons_self d ds)
    have hds : ∀ x ∈ ds, x < 10 := fun x hx => h x (List.mem_cons_of_mem d hx)
    simp only [List.map_cons, decodeDigits, digitVal_digitChar hd, ih hds]

theorem natEncode_ne_nil (n : Nat) : natEncode n ≠ [] := by
  unfold natEncode
  split
  · simp
  · next hn =>
    have : Nat.digits 10 n ≠ [] := Nat.digits_ne_nil_iff_ne_zero.mpr hn
    simp [this]

theorem natEncode_mem_ne_dash (n : Nat) : ∀ c ∈ natEncode n, c ≠ '-' := by
  intro c hc
  unfold natEncode at hc
  split at hc
  · simp at hc
    simp [hc]
  · simp only [List.mem_reverse, List.mem_map] at hc
    obtain ⟨d, _, rfl⟩ := hc
    exact digitChar_ne_dash d

theorem natDecode_natEncode (n : Nat) : natDecode (natEncode n) = some n := by
  by_cases hn : n = 0
  · subst hn
    rfl
  · have hne : Nat.digits 10 n ≠ [] := Nat.digits_ne_nil_iff_ne_zero.mpr hn
    have hlt : ∀ d ∈ (Nat.digits 10 n).reverse, d < 10 := by
      intro d hd
      exact Nat.digits_lt_base (by norm_num) (List.mem_reverse.mp hd)
    have henc : natEncode n = ((Nat.digits 10 n).reverse).map digitChar := by
      unfold natEncode
      rw [if_neg hn, List.map_reverse]
    have hdec : decodeDigits (((Nat.digits 10 n).reverse).map digitChar)
        = some ((Nat.digits 10 n).reverse) := decodeDigits_map_digitChar _ hlt
    have hnil : ((Nat.digits 10 n).reverse).map digitChar ≠ [] := by
      simp [hne]
    rw [henc]
    cases hl : ((Nat.digits 10 n).reverse).map digitChar with
    | nil => exact absurd hl hnil
    | cons c cs =>
      rw [hl] at hdec
      simp only [natDecode, hdec, Option.map_some']
      rw [List.reverse_reverse, Nat.ofDigits_digits]

theorem isoDecode_isoEncode (ms : Int) : isoDecode (isoEncode ms) = some ms := by
  by_cases hneg : ms < 0
  · have : isoEncode ms = ⟨'-' :: natEncode ms.natAbs⟩ := by
      unfold isoEncode
      rw [if_pos hneg]
    rw [this]
    show (if ('-' : Char) = '-' then
        (natDecode (natEncode ms.natAbs)).map (fun (n : Nat) => -(n : Int))
      else (natDecode ('-' :: natEncode ms.natAbs)).map (fun (n : Nat) => (n : Int))) = some ms
    rw [if_pos rfl, natDecode_natEncode]
    simp only [Option.map_some', Option.some.injEq]
    omega
  · have henc : isoEncode ms = ⟨natEncode ms.natAbs⟩ := by
      unfold isoEncode
      rw [if_neg hneg]
    rw [henc]
    cases hl : natEncode ms.natAbs with
    | nil => exact absurd hl (natEncode_ne_nil _)
    | cons c cs =>
      have hc : c ≠ '-' := by
        apply natEncode_mem_ne_dash ms.natAbs
        rw [hl]
        exact List.mem_cons_self c cs
      show (if c = '-' then (natDecode cs).map (fun (n : Nat) => -(n : Int))
        else (natDecode (c :: cs)).map (fun (n : Nat) => (n : Int))) = some ms
      rw [if_neg hc, ← hl, natDecode_natEncode]
      simp only [Option.map_some', Option.some.injEq]
      omega

/-- `String.prototype.trim()`: strip whitespace from both ends.  (Defined
structurally over the character list so that concrete instances evaluate;
`String.trim` in the library is extensionally the same function.) -/
def jsTrim (s : String) : String :=
  ⟨((s.data.dropWhile Char.isWhitespace).reverse.dropWhile Char.isWhitespace).reverse⟩

/-! ### The Task entity (`js/models/Task.js`, `class Task`) -/

/-- A task.  Field order and defaults follow the source; `createdAt` and
`updatedAt` are Date time values (`none` = Invalid Date, reachable only
through `fromJSON` on records whose timestamp fields do not parse). -/
structure Task where
  id : Int
  description : String
  status : String
  createdAt : Option Int
  updatedAt : Option Int
  detailedDescription : String
  urgencyLevel : String
  priority : String
deriving DecidableEq

/-- `new Task(description)`.  `freshId` models `this.generateId()` and `now`
the `new Date()` calls of the construction tick. -/
def Task.build (description : String) (freshId : Int) (now : Int) : Task :=
  { id := freshId
    description := jsTrim description
    status := "todo"
    createdAt := some now
    updatedAt := some now
    detailedDescription := ""
    urgencyLevel := "normal"
    priority := "normal" }

/-- `Task.prototype.updateStatus(newStatus)`: rejects a status outside the
three-value enum; otherwise mutates and refreshes `updatedAt` only when the
value actually changes. -/
def Task.updateStatus (t : Task) (newStatus : String) (now : Int) : Bool × Task :=
  if !(["todo", "progress", "done"].contains newStatus) then (false, t)
  else if t.status ≠ newStatus then
    (true, { t with status := newStatus, updatedAt := some now })
  else (false, t)

/-- `Task.prototype.toJSON()`.  `createdAt.toISOString()` (and then
`updatedAt.toISOString()`) throws a `RangeError` on an Invalid Date, hence
the `Option` result: `none` models the throw. -/
def Task.toJSON (t : Task) : Option Json :=
  match t.createdAt, t.updatedAt with
  | some c, some u =>
    some (.obj [("id", .num t.id), ("description", .str t.description),
      ("detailedDescription", .str t.detailedDescription),
      ("urgencyLevel", .str t.urgencyLevel), ("priority", .str t.priority),
      ("status", .str t.status),
      ("createdAt", .str (isoEncode c)), ("updatedAt", .str (isoEncode u))])
  | _, _ => none

/-- Dynamic field read (`task.x = data.x`) for a field that holds a string at
every verified call site (`isValidTaskData`-filtered data or `toJSON`
output); other dynamic values are outside the typed model. -/
def jsStr (v : Option Json) : String :=
  match v with
  | some (.str s) => s
  | _ => ""

/-- `data.x || dflt` for a field that is absent or holds a string at every
verified call site; an empty string is falsy, so it yields the default. -/
def jsStrOr (v : Option Json) (dflt : String) : String :=
  match v with
  | some (.str s) => if s = "" then dflt else s
  | _ => dflt

/-- Dynamic field read for a field that holds a number at every verified call
site. -/
def jsNum (v : Option Json) : Int :=
  match v with
  | some (.num n) => n
  | _ => 0

/-- `new Date(x)`: a number is a millisecond value, a string is parsed
(`isoDecode`), `null` and booleans coerce through `ToNumber`, and anything
else — including an absent field (`undefined`) — is an Invalid Date.
(`ToPrimitive` coercion of object arguments is not modelled.) -/
def jsNewDate (v : Option Json) : Option Int :=
  match v with
  | some (.num n) => some n
  | some (.str s) => isoDecode s
  | some .null => some 0
  | some (.bool b) => some (if b then 1 else 0)
  | _ => none

/-- `Task.fromJSON(data)`: reconstructs without re-validating. -/
def Task.fromJSON (data : Json) : Task :=
  { id := jsNum (data.get? "id")
    description := jsStr (data.get? "description")
    detailedDescription := jsStrOr (data.get? "detailedDescription") ""
    urgencyLevel := jsStrOr (data.get? "urgencyLevel") "normal"
    priority := jsStrOr (data.get? "priority") "normal"
    status := jsStr (data.get? "status")
    createdAt := jsNewDate (data.get? "createdAt")
    updatedAt := jsNewDate (data.get? "updatedAt") }

/-- `Task.isValidTaskData(data)`.  The source returns the value of the `&&`
chain, which `Array.prototype.filter` consumes by truthiness; the model
returns that truthiness directly. -/
def Task.isValidTaskData (data : Json) : Bool :=
  data.truthy &&
  (match data.get? "id" with | some (.num _) => true | _ => false) &&
  (match data.get? "description" with | some (.str s) => jsTrim s != "" | _ => false) &&
  (match data.get? "status" with
    | some (.str s) => ["todo", "progress", "done"].contains s
    | _ => false) &&
  (match data.get? "detailedDescription" with
    | none => true
    | some (.str _) => true
    | _ => false) &&
  (match data.get? "urgencyLevel" with
    | none => true
    | some (.str s) => ["baixa", "normal", "urgente"].contains s
    | _ => false) &&
  (match data.get? "priority" with
    | none => true
    | some (.str s) => ["baixa", "normal", "urgente"].contains s
    | _ => false)

/-! ### The task store (`js/models/Task.js`, `class TaskModel`)

Store mutators return `(result, new state, delivery log)`: the boolean the
method returns, the state after the call, and the observer notifications
delivered by it (empty when the method did not reach `notifyObservers`).
Persistence (`_savedTasks`) is observable only through whether serialization
throws, which `saveTasksResult` captures. -/

/-- A registered observer.  The `id` makes individual deliveries observable;
`throws` says whether its `update()` callback throws when invoked. -/
structure Observer where
  id : Nat
  throws : Bool
deriving DecidableEq

/-- `observer.update()`. -/
def Observer.update (o : Observer) : Except String Unit :=
  if o.throws then Except.error "update threw" else Except.ok ()

/-- `notifyObservers()`: `forEach` over the observer list with a per-observer
try/catch.  The result is the delivery log: every observer id in list order,
paired with whether its `catch` fired (`console.error` path). -/
def notifyObservers (observers : List Observer) : List (Nat × Bool) :=
  observers.map (fun o =>
    (o.id, match o.update with | Except.ok _ => false | Except.error _ => true))

structure TaskModel where
  tasks : List Task
  observers : List Observer
deriving DecidableEq

/-- `findTaskById(id)`: first match or null (`none`). -/
def TaskModel.findTaskById (m : TaskModel) (id : Int) : Option Task :=
  m.tasks.find? (fun t => t.id == id)

/-- `addTask(description)`.  For a string argument
`!description || !description.trim()` is exactly "the trimmed string is
empty", and `new Task(string)` cannot throw. -/
def TaskModel.addTask (m : TaskModel) (description : String) (freshId : Int) (now : Int) :
    Bool × TaskModel × List (Nat × Bool) :=
  if jsTrim description = "" then (false, m, [])
  else
    (true, { m with tasks := m.tasks ++ [Task.build description freshId now] },
      notifyObservers m.observers)

/-- In-place mutation of the first task with the given id (the object
`findTaskById` returned is an element of `this.tasks`). -/
def replaceFirstById (tasks : List Task) (id : Int) (t' : Task) : List Task :=
  match tasks with
  | [] => []
  | t :: ts => if t.id == id then t' :: ts else t :: replaceFirstById ts id t'

/-- `updateTaskStatus(id, newStatus)` on the store: locate, delegate to the
entity mutator, persist and notify only if it actually changed. -/
def TaskModel.updateTaskStatus (m : TaskModel) (id : Int) (newStatus : String) (now : Int) :
    Bool × TaskModel × List (Nat × Bool) :=
  match m.findTaskById id with
  | none => (false, m, [])
  | some task =>
    let r := task.updateStatus newStatus now
    let m' := { m with tasks := replaceFirstById m.tasks id r.2 }
    if r.1 then (true, m', notifyObservers m.observers) else (false, m', [])

/-- `deleteTask(id)`: `this.tasks = this.tasks.filter(t => t.id !== id)`,
success iff the length decreased. -/
def TaskModel.deleteTask (m : TaskModel) (id : Int) : Bool × TaskModel × List (Nat × Bool) :=
  let remaining := m.tasks.filter (fun t => !(t.id == id))
  let m' := { m with tasks := remaining }
  if remaining.length < m.tasks.length then (true, m', notifyObservers m.observers)
  else (false, m', [])

/-- The record `getStats()` returns. -/
structure Stats where
  todo : Nat
  progress : Nat
  done : Nat
  total : Nat
deriving DecidableEq

/-- One `forEach` step of `getStats`: `if (stats.hasOwnProperty(task.status))
stats[task.status]++`.  The own properties of `stats` are exactly `todo`,
`progress`, `done` and `total`, so a task whose status is the string
`total` increments the `total` counter. -/
def statsBump (s : Stats) (key : String) : Stats :=
  if key = "todo" then { s with todo := s.todo + 1 }
  else if key = "progress" then { s with progress := s.progress + 1 }
  else if key = "done" then { s with done := s.done + 1 }
  else if key = "total" then { s with total := s.total + 1 }
  else s

/-- `getStats()`. -/
def TaskModel.getStats (m : TaskModel) : Stats :=
  m.tasks.foldl (fun s t => statsBump s t.status)
    { todo := 0, progress := 0, done := 0, total := m.tasks.length }

/-- `moveTask(taskId, newIndex)`: `findIndex`, range check, then the two
`splice` calls. -/
def TaskModel.moveTask (m : TaskModel) (taskId : Int) (newIndex : Int) :
    Bool × TaskModel × List (Nat × Bool) :=
  match m.tasks.findIdx? (fun t => t.id == taskId) with
  | none => (false, m, [])
  | some taskIndex =>
    if newIndex < 0 ∨ (m.tasks.length : Int) ≤ newIndex then (false, m, [])
    else
      match m.tasks[taskIndex]? with
      | none => (false, m, [])
      | some task =>
        (true,
          { m with tasks := (m.tasks.eraseIdx taskIndex).insertIdx newIndex.toNat task },
          notifyObservers m.observers)

/-- `saveTasks()` serializes the whole list
(`this.tasks.map(task => task.toJSON())`); `none` models the `RangeError`
thrown by `toISOString` at the first task holding an Invalid Date. -/
def saveTasksResult (tasks : List Task) : Option (List Json) :=
  match tasks with
  | [] => some []
  | t :: ts =>
    match t.toJSON, saveTasksResult ts with
    | some j, some js => some (j :: js)
    | _, _ => none

/-- `importTasks(jsonData)`.  The argument is the result of
`JSON.parse(jsonData)`, with `none` modelling a parse throw.  A non-array
payload throws and is caught (state kept).  On an array the source assigns
`this.tasks` BEFORE calling `saveTasks()`; if serialization throws (some kept
record reconstructed with an Invalid Date), the catch returns `false` with
the collection already replaced and no notification delivered. -/
def TaskModel.importTasks (m : TaskModel) (parsed : Option Json) :
    Bool × TaskModel × List (Nat × Bool) :=
  match parsed with
  | none => (false, m, [])
  | some (Json.arr tasksData) =>
    let validTasks := tasksData.filter Task.isValidTaskData
    let m' := { m with tasks := validTasks.map Task.fromJSON }
    match saveTasksResult m'.tasks with
    | some _ => (true, m', notifyObservers m.observers)
    | none => (false, m', [])
  | some _ => (false, m, [])

/-! ### The controller command used by drag-and-drop
(`js/controllers/modal.js`, `TaskController.updateTaskStatus`) -/

/-- Controller `updateTaskStatus(taskId, newStatus)`: validates the enum,
checks existence, then delegates to the store (the view messages are pure
side effects outside the model). -/
def TaskController.updateTaskStatus (m : TaskModel) (taskId : Int) (newStatus : String)
    (now : Int) : Bool × TaskModel × List (Nat × Bool) :=
  if !(["todo", "progress", "done"].contains newStatus) then (false, m, [])
  else
    match m.findTaskById taskId with
    | none => (false, m, [])
    | some _ => m.updateTaskStatus taskId newStatus now

/-! ### The drop handler (`js/utils/DragDropHandler.js`, `handleDrop`) -/

/-- What `handleDrop` did: returned early because no drag is active, caught
an exception (malformed `application/json` payload), rejected falsy drop
data, ignored a same-column drop, or dispatched the controller command. -/
inductive DropOutcome where
  | ignored
  | errorCaught
  | invalidData
  | sameColumn
  | dispatched (success : Bool)
deriving DecidableEq

/-- The inputs `handleDrop` reads from the DOM drop event:
`payloadTaskId` is `parseFloat(e.dataTransfer.getData(<text/plain>))` with
`none` for `NaN`; `payloadSourceStatus` is `dragData.sourceStatus` with
`none` for `undefined`; `targetStatus` is `e.target.dataset.status` — the
`data-status` attribute of the element the drop actually landed on (`none`
when that element carries none); `payloadJsonMalformed` says whether
`JSON.parse` of the `application/json` payload throws. -/
structure DropEvent where
  payloadJsonMalformed : Bool
  payloadTaskId : Option Int
  payloadSourceStatus : Option String
  targetStatus : Option String
deriving DecidableEq

/-- Falsiness of the parsed task id: `NaN` and `0` are falsy. -/
def jsFalsyNum : Option Int → Bool
  | none => true
  | some n => n == 0

/-- Falsiness of a dataset read: `undefined` and the empty string are falsy. -/
def jsFalsyStr : Option String → Bool
  | none => true
  | some s => s == ""

/-- `handleDrop(e)`.  Note the target status is read off `e.target` itself;
no ancestor lookup is performed. -/
def DragDropHandler.handleDrop (isDragging : Bool) (e : DropEvent) (m : TaskModel)
    (now : Int) : DropOutcome × TaskModel × List (Nat × Bool) :=
  if !isDragging then (.ignored, m, [])
  else if e.payloadJsonMalformed then (.errorCaught, m, [])
  else if jsFalsyNum e.payloadTaskId || jsFalsyStr e.targetStatus then (.invalidData, m, [])
  else
    let taskId := e.payloadTaskId.getD 0
    let newStatus := e.targetStatus.getD ""
    if e.payloadSourceStatus == some newStatus then (.sameColumn, m, [])
    else
      let r := TaskController.updateTaskStatus m taskId newStatus now
      (.dispatched r.1, r.2.1, r.2.2)

/-! ### Claim theorems -/

/-- C3: for every task `t` and string `s`, `updateStatus` returns `false` and
leaves every field of `t` (including `updatedAt`) unchanged when `s` is not
in the three-value enum, and also when `s` equals the current status; when
`s` is in the enum and differs, it sets the status, refreshes `updatedAt`,
and returns `true`. -/
theorem updateStatus_spec (t : Task) (s : String) (now : Int) :
    (s ∉ (["todo", "progress", "done"] : List String) → t.updateStatus s now = (false, t)) ∧
    (s = t.status → t.updateStatus s now = (false, t)) ∧
    (s ∈ (["todo", "progress", "done"] : List String) → s ≠ t.status →
      t.updateStatus s now = (true, { t with status := s, updatedAt := some now })) := by
  refine ⟨fun h => ?_, fun h => ?_, fun h hne => ?_⟩
  · have hc : (["todo", "progress", "done"] : List String).contains s = false := by
      simpa using h
    unfold Task.updateStatus
    rw [hc]
    simp
  · by_cases hc : (["todo", "progress", "done"] : List String).contains s = true
    · unfold Task.updateStatus
      rw [hc]
      simp [h]
    · have hc2 : (["todo", "progress", "done"] : List String).contains s = false := by
        simpa using hc
      unfold Task.updateStatus
      rw [hc2]
      simp
  · have hc : (["todo", "progress", "done"] : List String).contains s = true := by
      simpa using h
    unfold Task.updateStatus
    rw [hc]
    simp [Ne.symm hne]

/-- C3 witness: a concrete status change out of `todo`. -/
theorem updateStatus_spec_witness :
    (Task.build "a" 1 0).updateStatus "progress" 5 =
      (true, { Task.build "a" 1 0 with status := "progress", updatedAt := some 5 }) :=
  (updateStatus_spec (Task.build "a" 1 0) "progress" 5).2.2 (by decide) (by decide)

/-- C4: for every description that is non-empty after trimming, `addTask`
returns `true`, appends to the end a fresh task with status `todo` and the
trimmed description, leaving all pre-existing tasks unchanged and growing
the count by exactly 1; for a blank description it returns `false` and
changes nothing. -/
theorem addTask_spec (m : TaskModel) (description : String) (freshId : Int) (now : Int) :
    (jsTrim description ≠ "" →
      (m.addTask description freshId now).1 = true ∧
      (m.addTask description freshId now).2.1.tasks
        = m.tasks ++ [Task.build description freshId now] ∧
      (m.addTask description freshId now).2.1.tasks.length = m.tasks.length + 1 ∧
      (Task.build description freshId now).status = "todo" ∧
      (Task.build description freshId now).description = jsTrim description) ∧
    (jsTrim description = "" → m.addTask description freshId now = (false, m, [])) := by
  constructor
  · intro h
    refine ⟨?_, ?_, ?_, rfl, rfl⟩ <;> simp [TaskModel.addTask, h]
  · intro h
    simp [TaskModel.addTask, h]

/-- C4 witness: adding a padded description to an empty store. -/
theorem addTask_spec_witness :
    ((TaskModel.mk [] []).addTask " buy milk " 3 7).1 = true ∧
    ((TaskModel.mk [] []).addTask " buy milk " 3 7).2.1.tasks
      = [] ++ [Task.build " buy milk " 3 7] ∧
    (Task.build " buy milk " 3 7).status = "todo" := by
  have h := (addTask_spec (TaskModel.mk [] []) " buy milk " 3 7).1 (by decide)
  exact ⟨h.1, h.2.1, h.2.2.2.1⟩

/-- Generic fact: filtering out the id keeps every list whose members all
miss the id. -/
theorem filter_ne_id_of_absent (tasks : List Task) (id : Int)
    (h : ∀ t ∈ tasks, t.id ≠ id) :
    tasks.filter (fun t => !(t.id == id)) = tasks := by
  apply List.filter_eq_self.mpr
  intro t ht
  simpa using h t ht

/-- With at most one matching task, `filter` (which the source uses) removes
exactly the first match, i.e. agrees with `eraseP`, and shrinks the length
by one. -/
theorem filter_ne_id_of_unique (tasks : List Task) (id : Int)
    (huniq : (tasks.filter (fun t => t.id == id)).length ≤ 1)
    (t0 : Task) (ht0 : t0 ∈ tasks) (hid : t0.id = id) :
    tasks.filter (fun t => !(t.id == id)) = tasks.eraseP (fun t => t.id == id) ∧
    (tasks.filter (fun t => !(t.id == id))).length + 1 = tasks.length := by
  induction tasks with
  | nil => cases ht0
  | cons t ts ih =>
    by_cases h : t.id = id
    · have hbeq : (t.id == id) = true := by simpa using h
      have hrest : ∀ x ∈ ts, x.id ≠ id := by
        intro x hx hxid
        have hxbeq : (x.id == id) = true := by simpa using hxid
        have : 2 ≤ ((t :: ts).filter (fun t => t.id == id)).length := by
          have hmem : x ∈ ts.filter (fun t => t.id == id) :=
            List.mem_filter.mpr ⟨hx, hxbeq⟩
          have : 1 ≤ (ts.filter (fun t => t.id == id)).length :=
            List.length_pos_of_mem hmem
          simp only [List.filter_cons, hbeq]
          simpa using this
        omega
      have hts : ts.filter (fun t => !(t.id == id)) = ts :=
        filter_ne_id_of_absent ts id hrest
      constructor
      · simp [List.filter_cons, List.eraseP_cons, hbeq, hts]
      · simp [List.filter_cons, hbeq, hts]
    · have hbeq : (t.id == id) = false := by simpa using h
      have ht0ts : t0 ∈ ts := by
        cases List.mem_cons.mp ht0 with
        | inl heq =>
          subst heq
          exact absurd hid h
        | inr hmem => exact hmem
      have huniq2 : (ts.filter (fun t => t.id == id)).length ≤ 1 := by
        simpa [List.filter_cons, hbeq] using huniq
      obtain ⟨h1, h2⟩ := ih huniq2 ht0ts
      constructor
      · simp [List.filter_cons, List.eraseP_cons, hbeq, h1]
      · simp only [List.filter_cons, hbeq, Bool.not_false, if_true, List.length_cons]
        simpa using h2

/-- After deleting the id, `find?` for that id misses. -/
theorem find_after_filter_ne_id (tasks : List Task) (id : Int) :
    (tasks.filter (fun t => !(t.id == id))).find? (fun t => t.id == id) = none := by
  apply List.find?_eq_none.mpr
  intro t ht
  have := (List.mem_filter.mp ht).2
  simp at this
  simp [this]

/-- C2: with ids unique ("the first (and only) task"), `deleteTask(id)`
removes exactly the task with that id and returns `true`, after which
`findTaskById(id)` is null and the count dropped by exactly one; when no
task has the id it returns `false` and the collection is unchanged. -/
theorem deleteTask_spec (m : TaskModel) (id : Int)
    (huniq : (m.tasks.filter (fun t => t.id == id)).length ≤ 1) :
    ((∃ t ∈ m.tasks, t.id = id) →
      (m.deleteTask id).1 = true ∧
      (m.deleteTask id).2.1.tasks.length + 1 = m.tasks.length ∧
      (m.deleteTask id).2.1.findTaskById id = none ∧
      (m.deleteTask id).2.1.tasks = m.tasks.eraseP (fun t => t.id == id)) ∧
    ((∀ t ∈ m.tasks, t.id ≠ id) → m.deleteTask id = (false, m, [])) := by
  constructor
  · rintro ⟨t0, ht0, hid⟩
    obtain ⟨herase, hlen⟩ := filter_ne_id_of_unique m.tasks id huniq t0 ht0 hid
    have hlt : (m.tasks.filter (fun t => !(t.id == id))).length < m.tasks.length := by
      omega
    refine ⟨?_, ?_, ?_, ?_⟩
    · simp [TaskModel.deleteTask, hlt]
    · simpa [TaskModel.deleteTask, hlt] using hlen
    · simp [TaskModel.deleteTask, hlt, TaskModel.findTaskById,
        find_after_filter_ne_id]
    · simpa [TaskModel.deleteTask, hlt] using herase
  · intro h
    have heq : m.tasks.filter (fun t => !(t.id == id)) = m.tasks :=
      filter_ne_id_of_absent m.tasks id h
    simp [TaskModel.deleteTask, heq]

/-- C2 witness: deleting the only task of a one-element store. -/
theorem deleteTask_spec_witness :
    ((TaskModel.mk [Task.build "a" 1 0] []).deleteTask 1).1 = true ∧
    ((TaskModel.mk [Task.build "a" 1 0] []).deleteTask 1).2.1.tasks.length + 1
      = (TaskModel.mk [Task.build "a" 1 0] []).tasks.length ∧
    ((TaskModel.mk [Task.build "a" 1 0] []).deleteTask 1).2.1.findTaskById 1 = none := by
  have h := (deleteTask_spec (TaskModel.mk [Task.build "a" 1 0] []) 1 (by decide)).1
    (by decide)
  exact ⟨h.1, h.2.1, h.2.2.1⟩

/-- Removing the element at `i` and re-inserting it at `i` restores the
list. -/
theorem insertIdx_eraseIdx_self {α : Type} (l : List α) (i : Nat) (a : α)
    (h : l[i]? = some a) : (l.eraseIdx i).insertIdx i a = l := by
  induction l generalizing i with
  | nil =>
    exact absurd h (by simp)
  | cons y ys ih =>
    match i with
    | 0 =>
      rw [List.getElem?_cons_zero, Option.some.injEq] at h
      rw [h]
      rfl
    | Nat.succ k =>
      rw [List.getElem?_cons_succ] at h
      rw [List.eraseIdx_cons_succ, List.insertIdx_succ_cons, ih k h]

/-- C6: `moveTask(id, n)` fails (returns `false`, ordering untouched) when
the id is unknown or `n` is outside `[0, length)`; otherwise it succeeds and
the new sequence is the old one with the task removed from its index and
re-inserted at index `n` (all other tasks keeping their relative order); in
particular `n` equal to the current index leaves the ordering unchanged. -/
theorem moveTask_spec (m : TaskModel) (taskId : Int) (n : Int) :
    (m.tasks.findIdx? (fun t => t.id == taskId) = none →
      m.moveTask taskId n = (false, m, [])) ∧
    (∀ i, m.tasks.findIdx? (fun t => t.id == taskId) = some i →
      ((n < 0 ∨ (m.tasks.length : Int) ≤ n) → m.moveTask taskId n = (false, m, [])) ∧
      (∀ task, m.tasks[i]? = some task → 0 ≤ n → n < (m.tasks.length : Int) →
        (m.moveTask taskId n).1 = true ∧
        (m.moveTask taskId n).2.1.tasks = (m.tasks.eraseIdx i).insertIdx n.toNat task ∧
        (n = (i : Int) → (m.moveTask taskId n).2.1.tasks = m.tasks))) := by
  constructor
  · intro hfind
    simp [TaskModel.moveTask, hfind]
  · intro i hfind
    constructor
    · intro hout
      simp [TaskModel.moveTask, hfind, hout]
    · intro task htask h0 hlen
      have hin : ¬(n < 0 ∨ (m.tasks.length : Int) ≤ n) := by omega
      refine ⟨?_, ?_, ?_⟩
      · simp [TaskModel.moveTask, hfind, hin, htask]
      · simp [TaskModel.moveTask, hfind, hin, htask]
      · intro hni
        have hn : n.toNat = i := by omega
        simp [TaskModel.moveTask, hfind, hin, htask, hn,
          insertIdx_eraseIdx_self m.tasks i task htask]

/-- C6 witness: moving the first of three tasks to the last position, and a
same-index move leaving the order unchanged. -/
theorem moveTask_spec_witness :
    ((TaskModel.mk [Task.build "a" 1 0, Task.build "b" 2 0, Task.build "c" 3 0]
        []).moveTask 1 2).2.1.tasks
      = ([Task.build "a" 1 0, Task.build "b" 2 0, Task.build "c" 3 0].eraseIdx 0).insertIdx 2
          (Task.build "a" 1 0) ∧
    ((TaskModel.mk [Task.build "a" 1 0, Task.build "b" 2 0, Task.build "c" 3 0]
        []).moveTask 2 1).2.1.tasks
      = [Task.build "a" 1 0, Task.build "b" 2 0, Task.build "c" 3 0] := by
  constructor
  · have h := ((moveTask_spec
      (TaskModel.mk [Task.build "a" 1 0, Task.build "b" 2 0, Task.build "c" 3 0] []) 1 2).2
      0 (by decide)).2 (Task.build "a" 1 0) (by decide) (by decide) (by decide)
    exact h.2.1
  · have h := ((moveTask_spec
      (TaskModel.mk [Task.build "a" 1 0, Task.build "b" 2 0, Task.build "c" 3 0] []) 2 1).2
      1 (by decide)).2 (Task.build "b" 2 0) (by decide) (by decide) (by decide)
    exact h.2.2 (by decide)

/-- C5: for every task `t` (with the well-formedness every task constructed
through the entity's own interface has: valid Date objects in the timestamp
fields and non-empty `urgencyLevel`/`priority`, which the constructor,
the mutators and `fromJSON` itself all guarantee),
`Task.fromJSON(t.toJSON())` reproduces every field of `t` exactly — in
particular id, description, detailedDescription, urgencyLevel, priority and
status, with the timestamps recovered to the exact millisecond (hence
agreeing at least to the second). -/
theorem fromJSON_toJSON_roundtrip (t : Task) (c u : Int)
    (hc : t.createdAt = some c) (hu : t.updatedAt = some u)
    (hurg : t.urgencyLevel ≠ "") (hpri : t.priority ≠ "") :
    t.toJSON.map Task.fromJSON = some t := by
  obtain ⟨id, desc, status, cA, uA, dd, urg, pri⟩ := t
  simp only at hc hu hurg hpri
  subst hc hu
  show Option.map Task.fromJSON (some (Json.obj
    [("id", Json.num id), ("description", Json.str desc),
      ("detailedDescription", Json.str dd),
      ("urgencyLevel", Json.str urg), ("priority", Json.str pri),
      ("status", Json.str status),
      ("createdAt", Json.str (isoEncode c)), ("updatedAt", Json.str (isoEncode u))]))
    = some (Task.mk id desc status (some c) (some u) dd urg pri)
  rw [Option.map_some']
  show some (Task.mk (jsNum (some (Json.num id))) (jsStr (some (Json.str desc)))
      (jsStr (some (Json.str status)))
      (jsNewDate (some (Json.str (isoEncode c)))) (jsNewDate (some (Json.str (isoEncode u))))
      (jsStrOr (some (Json.str dd)) "") (jsStrOr (some (Json.str urg)) "normal")
      (jsStrOr (some (Json.str pri)) "normal"))
    = some (Task.mk id desc status (some c) (some u) dd urg pri)
  have hdd : jsStrOr (some (Json.str dd)) "" = dd := by
    by_cases h : dd = ""
    · simp [jsStrOr, h]
    · simp [jsStrOr, h]
  have hu2 : jsStrOr (some (Json.str urg)) "normal" = urg := by
    simp [jsStrOr, hurg]
  have hp2 : jsStrOr (some (Json.str pri)) "normal" = pri := by
    simp [jsStrOr, hpri]
  simp only [jsNum, jsStr, jsNewDate, hdd, hu2, hp2, isoDecode_isoEncode]

/-- C5 witness: a concrete freshly-built task round-trips. -/
theorem fromJSON_toJSON_roundtrip_witness :
    (Task.build "pay rent" 4 9).toJSON.map Task.fromJSON = some (Task.build "pay rent" 4 9) :=
  fromJSON_toJSON_roundtrip (Task.build "pay rent" 4 9) 9 9 rfl rfl (by decide) (by decide)

/-- Serialization of the whole list succeeds exactly when every task
serializes (no Invalid Date anywhere). -/
theorem saveTasksResult_isSome (tasks : List Task) :
    (saveTasksResult tasks).isSome = tasks.all (fun t => t.toJSON.isSome) := by
  induction tasks with
  | nil => rfl
  | cons t ts ih =>
    cases h : t.toJSON with
    | none => simp [saveTasksResult, h]
    | some j =>
      cases h2 : saveTasksResult ts with
      | none =>
        have := ih
        rw [h2] at this
        simp [saveTasksResult, h, h2, ← this]
      | some js =>
        have := ih
        rw [h2] at this
        simp [saveTasksResult, h, h2, ← this]

/-- C1 counterexample: the record below passes `isValidTaskData` (id is a
number, description a non-blank string, status in the enum, the optional
fields absent) but carries no `createdAt`/`updatedAt`, so `fromJSON`
reconstructs it with Invalid Dates; `saveTasks()` — called after
`this.tasks` was already reassigned — then throws, the catch returns
`false`, and the collection nevertheless holds the imported task.  This
refutes "if the input parses to an array, importTasks returns true", and
with it the atomicity reading of the claim. -/
theorem importTasks_claim_counterexample :
    ((TaskModel.mk [] []).importTasks (some (Json.arr
        [Json.obj [("id", Json.num 1), ("description", Json.str "a"),
          ("status", Json.str "todo")]]))).1 = false ∧
    ((TaskModel.mk [] []).importTasks (some (Json.arr
        [Json.obj [("id", Json.num 1), ("description", Json.str "a"),
          ("status", Json.str "todo")]]))).2.1.tasks.length = 1 := by
  constructor <;> rfl

/-- C1 (amended): unparseable input or a non-array payload leaves the store
untouched and returns `false`; an array payload always replaces the whole
collection with exactly the records passing `isValidTaskData`, in order
(invalid ones dropped), and returns `true` exactly when every kept record
reconstructs with serializable (valid) timestamps — when one does not,
`saveTasks` throws after the reassignment and the call returns `false`
with the collection already replaced. -/
theorem importTasks_spec (m : TaskModel) (parsed : Option Json) :
    (parsed = none → m.importTasks parsed = (false, m, [])) ∧
    (∀ j, parsed = some j → (∀ xs, j ≠ Json.arr xs) →
      m.importTasks parsed = (false, m, [])) ∧
    (∀ xs, parsed = some (Json.arr xs) →
      (m.importTasks parsed).2.1.tasks
        = (xs.filter Task.isValidTaskData).map Task.fromJSON ∧
      (m.importTasks parsed).1
        = ((xs.filter Task.isValidTaskData).map Task.fromJSON).all
            (fun t => t.toJSON.isSome)) := by
  refine ⟨fun h => ?_, fun j hj hne => ?_, fun xs hxs => ?_⟩
  · subst h
    rfl
  · subst hj
    cases j with
    | arr xs => exact absurd rfl (hne xs)
    | null => rfl
    | bool b => rfl
    | num n => rfl
    | str s => rfl
    | obj fields => rfl
  · subst hxs
    constructor
    · simp only [TaskModel.importTasks]
      cases hsave : saveTasksResult ((xs.filter Task.isValidTaskData).map Task.fromJSON) <;>
        simp [hsave]
    · simp only [TaskModel.importTasks]
      rw [← saveTasksResult_isSome]
      cases hsave : saveTasksResult ((xs.filter Task.isValidTaskData).map Task.fromJSON) <;>
        simp [hsave]

/-- C1 witness: importing an array holding one fully valid record (with
parseable timestamps) and one invalid record (missing `description`)
succeeds and yields a collection of size 1 containing exactly the valid
record's task. -/
theorem importTasks_spec_witness :
    ((TaskModel.mk [Task.build "old" 9 0] []).importTasks (some (Json.arr
        [Json.obj [("id", Json.num 1), ("description", Json.str "a"),
          ("status", Json.str "todo"),
          ("createdAt", Json.str "0"), ("updatedAt", Json.str "0")],
         Json.obj [("id", Json.num 2), ("status", Json.str "done")]]))).2.1.tasks
      = [Task.fromJSON (Json.obj [("id", Json.num 1), ("description", Json.str "a"),
          ("status", Json.str "todo"),
          ("createdAt", Json.str "0"), ("updatedAt", Json.str "0")])] ∧
    ((TaskModel.mk [Task.build "old" 9 0] []).importTasks (some (Json.arr
        [Json.obj [("id", Json.num 1), ("description", Json.str "a"),
          ("status", Json.str "todo"),
          ("createdAt", Json.str "0"), ("updatedAt", Json.str "0")],
         Json.obj [("id", Json.num 2), ("status", Json.str "done")]]))).1 = true := by
  have h := (importTasks_spec (TaskModel.mk [Task.build "old" 9 0] [])
    (some (Json.arr
      [Json.obj [("id", Json.num 1), ("description", Json.str "a"),
        ("status", Json.str "todo"),
        ("createdAt", Json.str "0"), ("updatedAt", Json.str "0")],
       Json.obj [("id", Json.num 2), ("status", Json.str "done")]]))).2.2 _ rfl
  refine ⟨?_, ?_⟩
  · rw [h.1]
    rfl
  · rw [h.2]
    rfl

/-- Unfolding the `getStats` fold: each counter accumulates the number of
tasks whose status is that exact own-property name — including `total`. -/
theorem foldl_statsBump (tasks : List Task) (init : Stats) :
    tasks.foldl (fun s t => statsBump s t.status) init =
      { todo := init.todo + tasks.countP (fun t => t.status == "todo")
        progress := init.progress + tasks.countP (fun t => t.status == "progress")
        done := init.done + tasks.countP (fun t => t.status == "done")
        total := init.total + tasks.countP (fun t => t.status == "total") } := by
  induction tasks generalizing init with
  | nil => simp
  | cons t ts ih =>
    rw [List.foldl_cons, ih]
    unfold statsBump
    split_ifs <;> simp_all [List.countP_cons] <;> omega

/-- The three enum counters sum to the count of enum-status tasks. -/
theorem countP_enum_split (tasks : List Task) :
    tasks.countP (fun t => t.status == "todo") + tasks.countP (fun t => t.status == "progress")
      + tasks.countP (fun t => t.status == "done")
    = tasks.countP (fun t =>
        t.status == "todo" || t.status == "progress" || t.status == "done") := by
  induction tasks with
  | nil => rfl
  | cons t ts ih =>
    by_cases h1 : t.status = "todo" <;> by_cases h2 : t.status = "progress" <;>
      by_cases h3 : t.status = "done" <;>
      simp [List.countP_cons, h1, h2, h3] <;> omega

/-- C10 counterexample: a store holding a single task whose status is the
string `total` (reachable through `fromJSON`, which does not re-validate).
`hasOwnProperty` admits the key `total`, so `getStats` bumps the `total`
counter for it: `total` is 2 while the sequence length is 1, refuting
"total equals the length of the task sequence". -/
theorem getStats_claim_counterexample :
    (TaskModel.mk [Task.mk 1 "x" "total" (some 0) (some 0) "" "normal" "normal"] []).getStats.total
      = 2 ∧
    (TaskModel.mk [Task.mk 1 "x" "total" (some 0) (some 0) "" "normal" "normal"]
      []).tasks.length = 1 := by
  constructor <;> rfl

/-- C10 (amended): each of the todo/progress/done counters equals the number
of tasks with that exact status; `total` equals the sequence length PLUS the
number of tasks whose status is the literal string `total` (an artifact of
the `hasOwnProperty` guard); the three counters still sum to at most
`total`, with equality exactly when every task's status lies in the enum. -/
theorem getStats_spec (m : TaskModel) :
    m.getStats.todo = m.tasks.countP (fun t => t.status == "todo") ∧
    m.getStats.progress = m.tasks.countP (fun t => t.status == "progress") ∧
    m.getStats.done = m.tasks.countP (fun t => t.status == "done") ∧
    m.getStats.total = m.tasks.length + m.tasks.countP (fun t => t.status == "total") ∧
    m.getStats.todo + m.getStats.progress + m.getStats.done ≤ m.getStats.total ∧
    (m.getStats.todo + m.getStats.progress + m.getStats.done = m.getStats.total
      ↔ ∀ t ∈ m.tasks,
          t.status = "todo" ∨ t.status = "progress" ∨ t.status = "done") := by
  have hfold := foldl_statsBump m.tasks (Stats.mk 0 0 0 m.tasks.length)
  have h1 : m.getStats.todo = m.tasks.countP (fun t => t.status == "todo") := by
    rw [TaskModel.getStats, hfold]
    simp
  have h2 : m.getStats.progress = m.tasks.countP (fun t => t.status == "progress") := by
    rw [TaskModel.getStats, hfold]
    simp
  have h3 : m.getStats.done = m.tasks.countP (fun t => t.status == "done") := by
    rw [TaskModel.getStats, hfold]
    simp
  have h4 : m.getStats.total
      = m.tasks.length + m.tasks.countP (fun t => t.status == "total") := by
    rw [TaskModel.getStats, hfold]
  have hsplit := countP_enum_split m.tasks
  have hle : m.tasks.countP (fun t =>
      t.status == "todo" || t.status == "progress" || t.status == "done")
      ≤ m.tasks.length := List.countP_le_length _
  refine ⟨h1, h2, h3, h4, ?_, ?_⟩
  · omega
  · rw [h1, h2, h3, h4, hsplit]
    constructor
    · intro heq
      have hzero : m.tasks.countP (fun t => t.status == "total") = 0 := by omega
      have hall : m.tasks.countP (fun t =>
          t.status == "todo" || t.status == "progress" || t.status == "done")
          = m.tasks.length := by omega
      intro t ht
      have := List.countP_eq_length.mp hall t ht
      simpa [or_assoc] using this
    · intro hall
      have hlen : m.tasks.countP (fun t =>
          t.status == "todo" || t.status == "progress" || t.status == "done")
          = m.tasks.length := by
        apply List.countP_eq_length.mpr
        intro t ht
        simpa [or_assoc] using hall t ht
      have hzero : m.tasks.countP (fun t => t.status == "total") = 0 := by
        apply List.countP_eq_zero.mpr
        intro t ht
        rcases hall t ht with h | h | h <;> simp [h]
      omega

/-- The delivery log lists exactly the observer ids, in order. -/
theorem notifyObservers_fst (obs : List Observer) :
    (notifyObservers obs).map Prod.fst = obs.map Observer.id := by
  unfold notifyObservers
  rw [List.map_map]
  rfl

/-- C7: each registered observer is notified independently after a committed
mutation.  With an arbitrary throwing observer somewhere in the list, the
delivery log of the mutation (`updateTaskStatus`, the representative
committed mutation all mutators share `notifyObservers` with) still lists
every observer, in registration order, the throwing one marked as caught by
the per-observer `catch`; and the new task collection is the committed one —
the mutation is not rolled back. -/
theorem notifyObservers_isolation (pre post : List Observer) (bad : Observer)
    (hbad : bad.throws = true) (tasks : List Task) (id : Int) (s : String) (now : Int)
    (task : Task)
    (hfind : (TaskModel.mk tasks (pre ++ bad :: post)).findTaskById id = some task)
    (hs : s ∈ (["todo", "progress", "done"] : List String)) (hne : task.status ≠ s) :
    ((TaskModel.mk tasks (pre ++ bad :: post)).updateTaskStatus id s now).1 = true ∧
    ((TaskModel.mk tasks (pre ++ bad :: post)).updateTaskStatus id s now).2.2
      = notifyObservers pre ++ (bad.id, true) :: notifyObservers post ∧
    (((TaskModel.mk tasks (pre ++ bad :: post)).updateTaskStatus id s now).2.2.map Prod.fst
      = (pre ++ bad :: post).map Observer.id) ∧
    ((TaskModel.mk tasks (pre ++ bad :: post)).updateTaskStatus id s now).2.1.tasks
      = replaceFirstById tasks id { task with status := s, updatedAt := some now } := by
  have hc : (["todo", "progress", "done"] : List String).contains s = true := by
    simpa using hs
  have hupd : task.updateStatus s now
      = (true, { task with status := s, updatedAt := some now }) := by
    unfold Task.updateStatus
    rw [hc]
    simp [hne]
  have hrun : (TaskModel.mk tasks (pre ++ bad :: post)).updateTaskStatus id s now
      = (true,
          { tasks := replaceFirstById tasks id { task with status := s, updatedAt := some now },
            observers := pre ++ bad :: post },
          notifyObservers (pre ++ bad :: post)) := by
    unfold TaskModel.updateTaskStatus
    rw [hfind]
    simp [hupd]
  refine ⟨by rw [hrun], ?_, ?_, by rw [hrun]⟩
  · rw [hrun]
    simp [notifyObservers, Observer.update, hbad]
  · rw [hrun]
    exact notifyObservers_fst (pre ++ bad :: post)

/-- C7 witness: a throwing observer between two healthy ones neither stops
their deliveries nor rolls back the status change. -/
theorem notifyObservers_isolation_witness :
    ((TaskModel.mk [Task.build "a" 1 0]
        [Observer.mk 10 false, Observer.mk 11 true, Observer.mk 12 false]).updateTaskStatus
        1 "done" 5).1 = true ∧
    ((TaskModel.mk [Task.build "a" 1 0]
        [Observer.mk 10 false, Observer.mk 11 true, Observer.mk 12 false]).updateTaskStatus
        1 "done" 5).2.2.map Prod.fst = [10, 11, 12] := by
  have h := notifyObservers_isolation [Observer.mk 10 false] [Observer.mk 12 false]
    (Observer.mk 11 true) rfl [Task.build "a" 1 0] 1 "done" 5 (Task.build "a" 1 0)
    (by decide) (by decide) (by decide)
  exact ⟨h.1, h.2.2.1⟩

/-- C8: a drop whose payload `sourceStatus` equals the status the drop
target carries performs zero store mutations — the controller command is
never dispatched and the store is returned untouched; a drop on a target
carrying a different (enum) status changes exactly the dragged task — the
first task with the payload id — to that status and leaves every other task
untouched. -/
theorem handleDrop_spec (m : TaskModel) (e : DropEvent) (now : Int) :
    (e.payloadJsonMalformed = false →
      ∀ s, e.payloadSourceStatus = some s → e.targetStatus = some s →
        (DragDropHandler.handleDrop true e m now).2.1 = m ∧
        ∀ b, (DragDropHandler.handleDrop true e m now).1 ≠ DropOutcome.dispatched b) ∧
    (e.payloadJsonMalformed = false →
      ∀ tid ss ts task, e.payloadTaskId = some tid → tid ≠ 0 →
        e.payloadSourceStatus = some ss → e.targetStatus = some ts → ss ≠ ts →
        ts ∈ (["todo", "progress", "done"] : List String) →
        m.findTaskById tid = some task → task.status = ss →
        (DragDropHandler.handleDrop true e m now).1 = DropOutcome.dispatched true ∧
        (DragDropHandler.handleDrop true e m now).2.1.tasks
          = replaceFirstById m.tasks tid { task with status := ts, updatedAt := some now }) := by
  constructor
  · intro hjson s hsrc htgt
    cases hfal : (jsFalsyNum e.payloadTaskId || jsFalsyStr e.targetStatus) with
    | true =>
      have hdrop : DragDropHandler.handleDrop true e m now
          = (DropOutcome.invalidData, m, []) := by
        simp [DragDropHandler.handleDrop, hjson, hfal]
      rw [hdrop]
      exact ⟨rfl, by simp⟩
    | false =>
      have hbeq : (e.payloadSourceStatus == some (e.targetStatus.getD "")) = true := by
        rw [hsrc, htgt]
        simp
      have hdrop : DragDropHandler.handleDrop true e m now
          = (DropOutcome.sameColumn, m, []) := by
        simp [DragDropHandler.handleDrop, hjson, hfal, hbeq]
      rw [hdrop]
      exact ⟨rfl, by simp⟩
  · intro hjson tid ss ts task htid htid0 hsrc htgt hne hts hfind hstat
    have hts3 : ts = "todo" ∨ ts = "progress" ∨ ts = "done" := by
      simpa using hts
    have hts0 : ts ≠ "" := by
      rcases hts3 with h | h | h <;> simp [h]
    have hfal : (jsFalsyNum e.payloadTaskId || jsFalsyStr e.targetStatus) = false := by
      rw [htid, htgt]
      simp only [jsFalsyNum, jsFalsyStr, Bool.or_eq_false_iff]
      constructor
      · simpa using htid0
      · simpa using hts0
    have hcontains : (["todo", "progress", "done"] : List String).contains ts = true := by
      simpa using hts
    have hupd : task.updateStatus ts now
        = (true, { task with status := ts, updatedAt := some now }) := by
      unfold Task.updateStatus
      rw [hcontains]
      have hne2 : task.status ≠ ts := by
        rw [hstat]
        exact hne
      simp [hne2]
    have hctrl : TaskController.updateTaskStatus m tid ts now
        = (true,
            { tasks := replaceFirstById m.tasks tid
                { task with status := ts, updatedAt := some now },
              observers := m.observers },
            notifyObservers m.observers) := by
      unfold TaskController.updateTaskStatus
      rw [hcontains]
      simp only [Bool.not_true, Bool.false_eq_true, if_false]
      rw [hfind]
      unfold TaskModel.updateTaskStatus
      rw [hfind]
      simp [hupd]
    have hsame : (e.payloadSourceStatus == some ts) = false := by
      rw [hsrc]
      simp [hne]
    have hfalTid : jsFalsyNum (some tid) = false := by
      simpa [jsFalsyNum] using htid0
    have hfalTs : jsFalsyStr (some ts) = false := by
      simpa [jsFalsyStr] using hts0
    have hdrop : DragDropHandler.handleDrop true e m now
        = (DropOutcome.dispatched true,
            { tasks := replaceFirstById m.tasks tid
                { task with status := ts, updatedAt := some now },
              observers := m.observers },
            notifyObservers m.observers) := by
      simp [DragDropHandler.handleDrop, hjson, hfal, htid, htgt, hfalTid, hfalTs,
        hsame, hctrl]
    rw [hdrop]
    exact ⟨rfl, rfl⟩

/-- C8 witness: dropping task 1 (status `todo`) onto the `progress` column
flips exactly that task; the same-column drop mutates nothing. -/
theorem handleDrop_spec_witness :
    (DragDropHandler.handleDrop true (DropEvent.mk false (some 1) (some "todo") (some "progress"))
        (TaskModel.mk [Task.build "a" 1 0, Task.build "b" 2 0] []) 5).1
      = DropOutcome.dispatched true ∧
    (DragDropHandler.handleDrop true (DropEvent.mk false (some 1) (some "todo") (some "progress"))
        (TaskModel.mk [Task.build "a" 1 0, Task.build "b" 2 0] []) 5).2.1.tasks
      = [{ Task.build "a" 1 0 with status := "progress", updatedAt := some 5 },
          Task.build "b" 2 0] ∧
    (DragDropHandler.handleDrop true (DropEvent.mk false (some 1) (some "todo") (some "todo"))
        (TaskModel.mk [Task.build "a" 1 0, Task.build "b" 2 0] []) 5).2.1
      = TaskModel.mk [Task.build "a" 1 0, Task.build "b" 2 0] [] := by
  have hdiff := (handleDrop_spec (TaskModel.mk [Task.build "a" 1 0, Task.build "b" 2 0] [])
    (DropEvent.mk false (some 1) (some "todo") (some "progress")) 5).2 rfl
    1 "todo" "progress" (Task.build "a" 1 0) rfl (by decide) rfl rfl (by decide) (by decide)
    (by decide) rfl
  have hsame := (handleDrop_spec (TaskModel.mk [Task.build "a" 1 0, Task.build "b" 2 0] [])
    (DropEvent.mk false (some 1) (some "todo") (some "todo")) 5).1 rfl
    "todo" rfl rfl
  refine ⟨hdiff.1, ?_, hsame.1⟩
  rw [hdiff.2]
  rfl

/-- C9 counterexample: while dragging task 1 out of the `todo` column, the
drop lands on an element nested inside the `progress` column that carries no
`data-status` of its own (`targetStatus = none`).  The claim says the
handler resolves the enclosing column by ancestor lookup and still triggers
the transition; the code instead rejects the drop as invalid data: no status
transition happens and the store is untouched. -/
theorem handleDrop_nested_counterexample :
    DragDropHandler.handleDrop true (DropEvent.mk false (some 1) (some "todo") none)
      (TaskModel.mk [Task.mk 1 "x" "todo" (some 0) (some 0) "" "normal" "normal"] []) 7
    = (DropOutcome.invalidData,
        TaskModel.mk [Task.mk 1 "x" "todo" (some 0) (some 0) "" "normal" "normal"] [], []) := by
  rfl

/-- C9 (amended): a drop event whose immediate target element carries no
status is rejected as invalid drop data — `handleDrop` logs and returns
with zero store mutations; there is no ancestor lookup, so the transition
only triggers when the element the drop lands on itself carries a status. -/
theorem handleDrop_nested_spec (m : TaskModel) (e : DropEvent) (now : Int)
    (hjson : e.payloadJsonMalformed = false) (htarget : e.targetStatus = none) :
    DragDropHandler.handleDrop true e m now = (DropOutcome.invalidData, m, []) := by
  unfold DragDropHandler.handleDrop
  rw [hjson, htarget]
  simp [jsFalsyStr]

/-- C9 witness: the amended behaviour at a concrete nested-element drop. -/
theorem handleDrop_nested_spec_witness :
    DragDropHandler.handleDrop true (DropEvent.mk false (some 2) (some "done") none)
      (TaskModel.mk [Task.build "y" 2 0] []) 3
    = (DropOutcome.invalidData, TaskModel.mk [Task.build "y" 2 0] [], []) :=
  handleDrop_nested_spec (TaskModel.mk [Task.build "y" 2 0] [])
    (DropEvent.mk false (some 2) (some "done") none) 3 rfl rfl

/-- C10 witness: the amended counting law evaluated on a concrete mixed
store (one `todo` task, one `done` task). -/
theorem getStats_spec_witness :
    (TaskModel.mk [Task.build "a" 1 0,
      { Task.build "b" 2 0 with status := "done" }] []).getStats.todo = 1 ∧
    (TaskModel.mk [Task.build "a" 1 0,
      { Task.build "b" 2 0 with status := "done" }] []).getStats.done = 1 ∧
    (TaskModel.mk [Task.build "a" 1 0,
      { Task.build "b" 2 0 with status := "done" }] []).getStats.total = 2 := by
  have h := getStats_spec (TaskModel.mk [Task.build "a" 1 0,
    { Task.build "b" 2 0 with status := "done" }] [])
  refine ⟨?_, ?_, ?_⟩
  · rw [h.1]
    rfl
  · rw [h.2.2.1]
    rfl
  · rw [h.2.2.2.1]
    rfl

end TaskBoard
